import Mathlib

/-!
Shallow embedding of the FIFA standings engine
(`src/backend/src/fifa_engine.py`) and proofs of the specified
properties: standings calculation, FIFA tie-break sorting with a stable
MD5-based fallback, third-place qualification, bracket-label resolution
and predicted-standings simulation.

Python strings are modelled as `List Char` (a Python `str` is a sequence
of Unicode code points); Python's unbounded `int` is modelled as `Int`
(and as `Nat` where the value is a digest).  Python's `sorted` is a
stable sort; it is modelled by `List.insertionSort`, which is stable as
well, and a stable sort by a total preorder is unique, so the two agree
on every input.
-/

namespace FifaEngine

/-- Python strings are sequences of Unicode code points. -/
abbrev PyStr := List Char

/-! ### UTF-8 encoding (Python `str.encode()`) -/

/-- UTF-8 encoding of a sequence of code points, one byte list per
character, as produced by Python's `str.encode()`. -/
def utf8Bytes : PyStr → List Nat
  | [] => []
  | c :: cs =>
    let n := c.toNat
    (if n < 128 then [n]
     else if n < 2048 then [192 + n / 64, 128 + n % 64]
     else if n < 65536 then [224 + n / 4096, 128 + (n / 64) % 64, 128 + n % 64]
     else [240 + n / 262144, 128 + (n / 4096) % 64, 128 + (n / 64) % 64, 128 + n % 64])
      ++ utf8Bytes cs

/-! ### MD5 (`hashlib.md5`), on lists of bytes -/

/-- The 64 MD5 round constants `floor(abs(sin(i+1)) * 2^32)`. -/
def md5K : List Nat :=
  [0xd76aa478, 0xe8c7b756, 0x242070db, 0xc1bdceee,
   0xf57c0faf, 0x4787c62a, 0xa8304613, 0xfd469501,
   0x698098d8, 0x8b44f7af, 0xffff5bb1, 0x895cd7be,
   0x6b901122, 0xfd987193, 0xa679438e, 0x49b40821,
   0xf61e2562, 0xc040b340, 0x265e5a51, 0xe9b6c7aa,
   0xd62f105d, 0x02441453, 0xd8a1e681, 0xe7d3fbc8,
   0x21e1cde6, 0xc33707d6, 0xf4d50d87, 0x455a14ed,
   0xa9e3e905, 0xfcefa3f8, 0x676f02d9, 0x8d2a4c8a,
   0xfffa3942, 0x8771f681, 0x6d9d6122, 0xfde5380c,
   0xa4beea44, 0x4bdecfa9, 0xf6bb4b60, 0xbebfbc70,
   0x289b7ec6, 0xeaa127fa, 0xd4ef3085, 0x04881d05,
   0xd9d4d039, 0xe6db99e5, 0x1fa27cf8, 0xc4ac5665,
   0xf4292244, 0x432aff97, 0xab9423a7, 0xfc93a039,
   0x655b59c3, 0x8f0ccc92, 0xffeff47d, 0x85845dd1,
   0x6fa87e4f, 0xfe2ce6e0, 0xa3014314, 0x4e0811a1,
   0xf7537e82, 0xbd3af235, 0x2ad7d2bb, 0xeb86d391]

/-- The 64 MD5 per-round left-rotation amounts. -/
def md5S : List Nat :=
  [7, 12, 17, 22, 7, 12, 17, 22, 7, 12, 17, 22, 7, 12, 17, 22,
   5, 9, 14, 20, 5, 9, 14, 20, 5, 9, 14, 20, 5, 9, 14, 20,
   4, 11, 16, 23, 4, 11, 16, 23, 4, 11, 16, 23, 4, 11, 16, 23,
   6, 10, 15, 21, 6, 10, 15, 21, 6, 10, 15, 21, 6, 10, 15, 21]

/-- 32-bit left rotation. -/
def rotl32 (x n : Nat) : Nat :=
  ((x <<< n) ||| (x >>> (32 - n))) % 4294967296

/-- The MD5 nonlinear mixing function for round `i`. -/
def md5F (i b c d : Nat) : Nat :=
  if i < 16 then (b &&& c) ||| ((b ^^^ 4294967295) &&& d)
  else if i < 32 then (d &&& b) ||| ((d ^^^ 4294967295) &&& c)
  else if i < 48 then b ^^^ c ^^^ d
  else c ^^^ (b ||| (d ^^^ 4294967295))

/-- The MD5 message-word index for round `i`. -/
def md5G (i : Nat) : Nat :=
  if i < 16 then i
  else if i < 32 then (5 * i + 1) % 16
  else if i < 48 then (3 * i + 5) % 16
  else (7 * i) % 16

/-- Little-endian 32-bit word `j` of a 64-byte chunk. -/
def md5Word (chunk : List Nat) (j : Nat) : Nat :=
  chunk.getD (4 * j) 0 + 256 * chunk.getD (4 * j + 1) 0
    + 65536 * chunk.getD (4 * j + 2) 0 + 16777216 * chunk.getD (4 * j + 3) 0

/-- One MD5 round on state `(a, b, c, d)`. -/
def md5Step (chunk : List Nat) (st : Nat × Nat × Nat × Nat) (i : Nat) :
    Nat × Nat × Nat × Nat :=
  let (a, b, c, d) := st
  let f := (md5F i b c d + a + md5K.getD i 0 + md5Word chunk (md5G i)) % 4294967296
  (d, (b + rotl32 f (md5S.getD i 0)) % 4294967296, b, c)

/-- Process one 64-byte chunk: 64 rounds, then add into the running state. -/
def md5Chunk (st : Nat × Nat × Nat × Nat) (chunk : List Nat) :
    Nat × Nat × Nat × Nat :=
  let (a, b, c, d) := (List.range 64).foldl (md5Step chunk) st
  ((st.1 + a) % 4294967296, (st.2.1 + b) % 4294967296,
   (st.2.2.1 + c) % 4294967296, (st.2.2.2 + d) % 4294967296)

/-- MD5 padding: a `0x80` byte, zeros up to 56 mod 64, then the bit
length as a little-endian 64-bit quantity. -/
def md5Pad (msg : List Nat) : List Nat :=
  let z := (120 - (msg.length + 1) % 64) % 64
  msg ++ [128] ++ List.replicate z 0
    ++ (List.range 8).map (fun i => (((8 * msg.length) % 18446744073709551616) >>> (8 * i)) % 256)

/-- Split a byte list into 64-byte chunks. -/
def toChunks : List Nat → List (List Nat)
  | [] => []
  | b :: bs => ((b :: bs).take 64) :: toChunks ((b :: bs).drop 64)
termination_by l => l.length
decreasing_by simp; omega

/-- The 16 MD5 digest bytes of a message. -/
def md5Digest (msg : List Nat) : List Nat :=
  let st := (toChunks (md5Pad msg)).foldl md5Chunk
    (1732584193, 4023233417, 2562383102, 271733878)
  ([st.1, st.2.1, st.2.2.1, st.2.2.2].map
    (fun w => (List.range 4).map (fun i => (w >>> (8 * i)) % 256))).flatten

/-- `int(hashlib.md5(msg).hexdigest(), 16)`: the digest bytes read as a
big-endian integer. -/
def md5Int (msg : List Nat) : Nat :=
  (md5Digest msg).foldl (fun acc b => acc * 256 + b) 0

/-- The stable team-name hash used as the final sort fallback:
`int(hashlib.md5(team_name.encode()).hexdigest(), 16)`. -/
def teamHash (name : PyStr) : Nat := md5Int (utf8Bytes name)

/-! ### Data model (`GroupStanding`, the input records) -/

/-- The `GroupStanding` dataclass.  All Python `int` fields are `Int`. -/
structure GroupStanding where
  team_name : PyStr
  group_letter : PyStr
  rank : Int
  played : Int := 0
  won : Int := 0
  draw : Int := 0
  lost : Int := 0
  goals_for : Int := 0
  goals_against : Int := 0
  goal_difference : Int := 0
  points : Int := 0
  fair_play_points : Int := 0
  predicted_rank : Option Int := none
deriving DecidableEq

/-- One match-result dict: `home_team`, `away_team`, `home_score`,
`away_score`. -/
structure MatchResult where
  home_team : PyStr
  away_team : PyStr
  home_score : Int
  away_score : Int
deriving DecidableEq

/-- One fair-play card dict: `team_name` plus the card counts
(`dict.get(key, 0)` makes a missing count 0, so plain `Int` fields). -/
structure CardData where
  team_name : PyStr
  yellow : Int := 0
  second_yellow : Int := 0
  red : Int := 0
deriving DecidableEq

/-- A predicted-rank dict `team_name -> rank`, in insertion order. -/
abbrev PredMap := List (PyStr × Int)

/-! ### StandingsCalculator (`FifaEngine.calculate_standings`) -/

/-- A fresh all-zero row, as created while scanning results and cards. -/
def newStanding (gl t : PyStr) : GroupStanding :=
  { team_name := t, group_letter := gl, rank := 0 }

/-- `team_name in standings_dict`. -/
def containsTeam (l : List GroupStanding) (t : PyStr) : Bool :=
  l.any (fun s => decide (s.team_name = t))

/-- Add a row for `t` unless one is already present (dicts keep
insertion order, so the new row goes at the end). -/
def addTeam (gl : PyStr) (l : List GroupStanding) (t : PyStr) : List GroupStanding :=
  if containsTeam l t then l else l ++ [newStanding gl t]

/-- Rows for every team appearing in `results`, in first-appearance
order (home side scanned before away side). -/
def initFromResults (gl : PyStr) (results : List MatchResult) : List GroupStanding :=
  results.foldl (fun acc m => addTeam gl (addTeam gl acc m.home_team) m.away_team) []

/-- Additionally add rows for teams appearing only in `cards`. -/
def initFromCards (gl : PyStr) (cards : List CardData) (l : List GroupStanding) :
    List GroupStanding :=
  cards.foldl (fun acc c => addTeam gl acc c.team_name) l

/-- Update the (unique) row whose `team_name` is `t`; rows are keyed by
team name, so this is the dict write `standings_dict[t] = f ...`. -/
def updFirst (t : PyStr) (f : GroupStanding → GroupStanding) :
    List GroupStanding → List GroupStanding
  | [] => []
  | s :: rest =>
    if s.team_name = t then f s :: rest else s :: updFirst t f rest

/-- Fold one side's view of a result into its row: `played += 1`, goal
tallies, and the win/draw/loss counters and points for that side.
`gf`/`ga` are the goals this side scored/conceded. -/
def applyResult (gf ga : Int) (s : GroupStanding) : GroupStanding :=
  { s with
    played := s.played + 1
    goals_for := s.goals_for + gf
    goals_against := s.goals_against + ga
    won := if gf > ga then s.won + 1 else s.won
    lost := if ga > gf then s.lost + 1 else s.lost
    draw := if gf = ga then s.draw + 1 else s.draw
    points := s.points + (if gf > ga then 3 else if ga > gf then 0 else 1) }

/-- Fold one match result into the table (home side, then away side;
all the Python statements are additive field updates, so this sequential
composition also models the aliased case `home_team == away_team`). -/
def processMatch (l : List GroupStanding) (m : MatchResult) : List GroupStanding :=
  updFirst m.away_team (applyResult m.away_score m.home_score)
    (updFirst m.home_team (applyResult m.home_score m.away_score) l)

/-- `s.goal_difference = s.goals_for - s.goals_against` for every row. -/
def recomputeGD (l : List GroupStanding) : List GroupStanding :=
  l.map (fun s => { s with goal_difference := s.goals_for - s.goals_against })

/-- The fair-play penalty of one card record:
`yellow * -1 + second_yellow * -2 + red * -4`. -/
def cardPenalty (c : CardData) : Int :=
  c.yellow * (-1) + c.second_yellow * (-2) + c.red * (-4)

/-- Process the cards: each record **assigns** (not adds) the team's
fair-play points, skipping teams not in the table. -/
def applyCards (l : List GroupStanding) (cards : List CardData) : List GroupStanding :=
  cards.foldl
    (fun acc c =>
      if containsTeam acc c.team_name then
        updFirst c.team_name (fun s => { s with fair_play_points := cardPenalty c }) acc
      else acc)
    l

/-! ### TieBreakSorter (`_sort_standings`, `_sort_standings_with_ai`) -/

/-- The sort key of `_sort_standings`, compared lexicographically:
`(-points, -goal_difference, -goals_for, -fair_play_points, team_hash)`. -/
def sortKey (s : GroupStanding) : List Int :=
  [-s.points, -s.goal_difference, -s.goals_for, -s.fair_play_points,
   (teamHash s.team_name : Int)]

/-- Key comparison for the plain sorter (lexicographic on `sortKey`). -/
def standingLE (a b : GroupStanding) : Prop :=
  sortKey a ≤ sortKey b

instance : DecidableRel standingLE :=
  fun a b => inferInstanceAs (Decidable (sortKey a ≤ sortKey b))

instance : IsTotal GroupStanding standingLE :=
  ⟨fun a b => le_total (sortKey a) (sortKey b)⟩

instance : IsTrans GroupStanding standingLE :=
  ⟨fun _ _ _ => le_trans⟩

/-- `sorted(standings, key=sort_key)`: a stable sort by the key. -/
def sort_standings (l : List GroupStanding) : List GroupStanding :=
  l.insertionSort standingLE

/-- Dict lookup `d.get(k)` (keys are unique, first match). -/
def dictGet (d : PredMap) (k : PyStr) : Option Int :=
  (d.find? (fun p => decide (p.1 = k))).map (·.2)

/-- Python truthiness of an optional dict: `None` and `{}` are falsy. -/
def truthy : Option PredMap → Bool
  | some (_ :: _) => true
  | _ => false

/-- `predicted_ranks.get(s.team_name, 999) if predicted_ranks else 999`. -/
def aiRank (pm : Option PredMap) (s : GroupStanding) : Int :=
  if truthy pm then (dictGet (pm.getD []) s.team_name).getD 999 else 999

/-- The sort key of `_sort_standings_with_ai`: the plain key with the
AI predicted rank inserted before the hash fallback. -/
def sortKeyAI (pm : Option PredMap) (s : GroupStanding) : List Int :=
  [-s.points, -s.goal_difference, -s.goals_for, -s.fair_play_points,
   aiRank pm s, (teamHash s.team_name : Int)]

/-- Key comparison for the AI-aware sorter. -/
def standingLEAI (pm : Option PredMap) (a b : GroupStanding) : Prop :=
  sortKeyAI pm a ≤ sortKeyAI pm b

instance (pm : Option PredMap) : DecidableRel (standingLEAI pm) :=
  fun a b => inferInstanceAs (Decidable (sortKeyAI pm a ≤ sortKeyAI pm b))

instance (pm : Option PredMap) : IsTotal GroupStanding (standingLEAI pm) :=
  ⟨fun a b => le_total (sortKeyAI pm a) (sortKeyAI pm b)⟩

instance (pm : Option PredMap) : IsTrans GroupStanding (standingLEAI pm) :=
  ⟨fun _ _ _ => le_trans⟩

/-- `_sort_standings_with_ai`: stable sort by the extended key. -/
def sort_standings_with_ai (l : List GroupStanding) (pm : Option PredMap) :
    List GroupStanding :=
  l.insertionSort (standingLEAI pm)

/-- The sorter choice in `calculate_standings`:
`if predicted_ranks: _sort_standings_with_ai(...) else: _sort_standings(...)`. -/
def sortDispatch (pm : Option PredMap) (l : List GroupStanding) : List GroupStanding :=
  if truthy pm then sort_standings_with_ai l pm else sort_standings l

/-- The body of the rank-assignment loop for the row at 0-based
position `i`: `s.rank = i + 1`, and `s.predicted_rank =
predicted_ranks[s.team_name]` when the dict is truthy and has the team. -/
def applyRank (pm : Option PredMap) (i : Nat) (s : GroupStanding) : GroupStanding :=
  let s1 := { s with rank := (i : Int) + 1 }
  if truthy pm then
    match dictGet (pm.getD []) s1.team_name with
    | some r => { s1 with predicted_rank := some r }
    | none => s1
  else s1

/-- Rank assignment after sorting (`for i, s in enumerate(...)`). -/
def assignRanksFrom (pm : Option PredMap) : Nat → List GroupStanding → List GroupStanding
  | _, [] => []
  | i, s :: rest => applyRank pm i s :: assignRanksFrom pm (i + 1) rest

/-- `FifaEngine.calculate_standings`: initialise rows from results and
cards, fold results, recompute goal difference, apply cards, sort, and
assign ranks. -/
def calculate_standings (gl : PyStr) (results : List MatchResult)
    (cards : Option (List CardData)) (pm : Option PredMap) : List GroupStanding :=
  let l1 := initFromCards gl (cards.getD []) (initFromResults gl results)
  let l2 := results.foldl processMatch l1
  let l3 := recomputeGD l2
  let l4 := applyCards l3 (cards.getD [])
  assignRanksFrom pm 0 (sortDispatch pm l4)

/-! ### ThirdPlaceQualifier (`FifaEngine.rank_third_place_teams`) -/

/-- The row at 0-indexed position 2 of every group having at least 3
rows, in group (dict insertion) order. -/
def thirdPlaceCandidates (all : List (PyStr × List GroupStanding)) :
    List GroupStanding :=
  all.filterMap (fun p => if p.2.length ≥ 3 then p.2[2]? else none)

/-- `FifaEngine.rank_third_place_teams`: sort the third-place rows with
the plain sorter and keep the first 8. -/
def rank_third_place_teams (all : List (PyStr × List GroupStanding)) :
    List GroupStanding :=
  (sort_standings (thirdPlaceCandidates all)).take 8

/-! ### BracketResolver (`FifaEngine._resolve_label`) -/

/-- `str.startswith`. -/
def pyStartsWith : PyStr → PyStr → Bool
  | [], _ => true
  | _ :: _, [] => false
  | p :: ps, c :: cs => if p = c then pyStartsWith ps cs else false

/-- `str.replace` for a non-empty pattern `p :: ps`: replace every
non-overlapping occurrence, left to right.  The `Nat` argument is fuel;
every step consumes at least one character, so any fuel of at least the
string's length gives the replace-all semantics (see
`replaceGo_fuel`). -/
def replaceGo (p : Char) (ps rep : PyStr) : Nat → PyStr → PyStr
  | 0, s => s
  | _ + 1, [] => []
  | fuel + 1, c :: cs =>
    if pyStartsWith (p :: ps) (c :: cs) then
      rep ++ replaceGo p ps rep fuel (cs.drop ps.length)
    else c :: replaceGo p ps rep fuel cs

/-- `str.replace(pat, rep)` (the empty pattern inserts `rep` around
every character, as in Python). -/
def pyReplace (pat rep s : PyStr) : PyStr :=
  match pat with
  | [] => rep ++ (s.map (fun c => c :: rep)).flatten
  | p :: ps => replaceGo p ps rep s.length s

/-- The fuel in `replaceGo` is irrelevant once it covers the string's
length. -/
theorem replaceGo_fuel (p : Char) (ps rep : PyStr) :
    ∀ (n : Nat) (s : PyStr) (m : Nat), s.length ≤ n → s.length ≤ m →
      replaceGo p ps rep n s = replaceGo p ps rep m s := by
  intro n
  induction n with
  | zero =>
    intro s m hn _
    have : s = [] := List.length_eq_zero.mp (Nat.le_zero.mp hn)
    subst this
    cases m <;> rfl
  | succ n ih =>
    intro s m hn hm
    cases s with
    | nil => cases m <;> rfl
    | cons c cs =>
      cases m with
      | zero => simp at hm
      | succ m =>
        show (if pyStartsWith (p :: ps) (c :: cs) then
            rep ++ replaceGo p ps rep n (cs.drop ps.length)
          else c :: replaceGo p ps rep n cs) = _
        rw [show replaceGo p ps rep (m + 1) (c :: cs)
          = (if pyStartsWith (p :: ps) (c :: cs) then
              rep ++ replaceGo p ps rep m (cs.drop ps.length)
            else c :: replaceGo p ps rep m cs) from rfl]
        have hcs : cs.length ≤ n := by
          simp only [List.length_cons] at hn; omega
        have hcs' : cs.length ≤ m := by
          simp only [List.length_cons] at hm; omega
        have hdrop : (cs.drop ps.length).length ≤ n := by
          simp only [List.length_drop]; omega
        have hdrop' : (cs.drop ps.length).length ≤ m := by
          simp only [List.length_drop]; omega
        split
        · rw [ih _ m hdrop hdrop']
        · rw [ih _ m hcs hcs']

/-- The ASCII whitespace stripped by `str.strip()`. -/
def pyIsSpace (c : Char) : Bool :=
  decide (c = ' ' ∨ c = '\t' ∨ c = '\n' ∨ c = '\r'
    ∨ c = Char.ofNat 11 ∨ c = Char.ofNat 12)

/-- `str.strip()`. -/
def pyStrip (s : PyStr) : PyStr :=
  ((s.dropWhile pyIsSpace).reverse.dropWhile pyIsSpace).reverse

/-- `str.split("/")`: split on every slash, keeping empty pieces. -/
def pySplitSlash : PyStr → List PyStr
  | [] => [[]]
  | c :: cs =>
    match pySplitSlash cs with
    | [] => [[c]]
    | h :: t => if c = '/' then [] :: h :: t else (c :: h) :: t

/-- `group in standings and standings[group]`. -/
def lookupGroup (st : List (PyStr × List GroupStanding)) (g : PyStr) :
    Option (List GroupStanding) :=
  (st.find? (fun p => decide (p.1 = g))).map (·.2)

/-- Lookup in the `third_place_by_group` dict. -/
def lookupTP (tp : List (PyStr × PyStr)) (g : PyStr) : Option PyStr :=
  (tp.find? (fun p => decide (p.1 = g))).map (·.2)

/-- `FifaEngine._resolve_label`: resolve a placeholder label against the
group standings and the third-place-by-group dict. -/
def resolve_label (label : PyStr) (standings : List (PyStr × List GroupStanding))
    (tpbg : List (PyStr × PyStr)) : PyStr :=
  if pyStartsWith "Winner ".data label then
    match lookupGroup standings (pyStrip (pyReplace "Winner ".data [] label)) with
    | some (r :: _) => r.team_name
    | _ => "TBD".data
  else if pyStartsWith "Runner-up ".data label then
    match lookupGroup standings (pyStrip (pyReplace "Runner-up ".data [] label)) with
    | some (_ :: r :: _) => r.team_name
    | _ => "TBD".data
  else if pyStartsWith "3rd Place ".data label then
    match (pySplitSlash (pyReplace "3rd Place ".data [] label)).findSome?
        (fun o => lookupTP tpbg (pyStrip o)) with
    | some t => t
    | none => "TBD".data
  else label

/-! ### PredictedStandingsSimulator (`calculate_predicted_standings`) -/

/-- One AI prediction dict; every key is read with `.get`, so each
field is optional. -/
structure Prediction where
  home_team_name : Option PyStr := none
  away_team_name : Option PyStr := none
  predicted_home_score : Option Int := none
  predicted_away_score : Option Int := none
deriving DecidableEq

/-- The predicted matchups whose two teams both belong to `team_names`,
turned into simulated match results (missing scores default to 0). -/
def filteredMatchups (team_names : List PyStr) (preds : List Prediction) :
    List MatchResult :=
  preds.filterMap (fun p =>
    match p.home_team_name, p.away_team_name with
    | some h, some a =>
      if h ∈ team_names ∧ a ∈ team_names then
        some { home_team := h, away_team := a,
               home_score := p.predicted_home_score.getD 0,
               away_score := p.predicted_away_score.getD 0 }
      else none
    | _, _ => none)

/-- `FifaEngine.calculate_predicted_standings`: simulate the filtered
matchups through the standings calculator (no cards, no predicted-rank
map) and return the `team_name -> rank` mapping; empty when no matchup
survives the filter. -/
def calculate_predicted_standings (gl : PyStr) (team_names : List PyStr)
    (preds : List Prediction) : PredMap :=
  let sim := filteredMatchups team_names preds
  if sim.isEmpty then []
  else (calculate_standings gl sim none none).map (fun s => (s.team_name, s.rank))

/-! ### Basic facts about the standings table -/

/-- The dict keys: the team names of the rows, in order. -/
def teamNames (l : List GroupStanding) : List PyStr := l.map (·.team_name)

theorem containsTeam_iff {l : List GroupStanding} {t : PyStr} :
    containsTeam l t = true ↔ t ∈ teamNames l := by
  simp [containsTeam, teamNames, List.any_eq_true, List.mem_map]

theorem teamNames_updFirst (t : PyStr) (f : GroupStanding → GroupStanding)
    (hf : ∀ s, (f s).team_name = s.team_name) :
    ∀ l, teamNames (updFirst t f l) = teamNames l := by
  intro l
  induction l with
  | nil => rfl
  | cons s rest ih =>
    by_cases h : s.team_name = t
    · simp [updFirst, h, teamNames, hf]
    · simpa [updFirst, h, teamNames] using ih

theorem updFirst_forall (t : PyStr) (f : GroupStanding → GroupStanding)
    {P : GroupStanding → Prop} (hf : ∀ s, P s → P (f s)) :
    ∀ {l : List GroupStanding}, (∀ x ∈ l, P x) → ∀ x ∈ updFirst t f l, P x := by
  intro l
  induction l with
  | nil => intro _ x hx; cases hx
  | cons s rest ih =>
    intro h x hx
    by_cases hs : s.team_name = t
    · rw [updFirst, if_pos hs] at hx
      rcases List.mem_cons.mp hx with rfl | hx
      · exact hf s (h s (List.mem_cons_self s rest))
      · exact h x (List.mem_cons_of_mem s hx)
    · rw [updFirst, if_neg hs] at hx
      rcases List.mem_cons.mp hx with rfl | hx
      · exact h x (List.mem_cons_self x rest)
      · exact ih (fun y hy => h y (List.mem_cons_of_mem s hy)) x hx

/-- The row stored under key `t` (first—and, with unique keys, only—row
so named). -/
def rowFor (l : List GroupStanding) (t : PyStr) : Option GroupStanding :=
  l.find? (fun s => decide (s.team_name = t))

theorem rowFor_updFirst (t : PyStr) (f : GroupStanding → GroupStanding)
    (hf : ∀ s, (f s).team_name = s.team_name) :
    ∀ l, rowFor (updFirst t f l) t = (rowFor l t).map f := by
  intro l
  induction l with
  | nil => rfl
  | cons s rest ih =>
    by_cases h : s.team_name = t
    · have hfs : ((f s).team_name = t) := by rw [hf s, h]
      rw [updFirst, if_pos h, rowFor, rowFor,
        List.find?_cons_of_pos _ (by simpa using hfs),
        List.find?_cons_of_pos _ (by simpa using h)]
      rfl
    · rw [updFirst, if_neg h, rowFor, rowFor,
        List.find?_cons_of_neg _ (by simpa using h),
        List.find?_cons_of_neg _ (by simpa using h)]
      exact ih

theorem rowFor_updFirst_ne (t t' : PyStr) (f : GroupStanding → GroupStanding)
    (hf : ∀ s, (f s).team_name = s.team_name) (hne : t' ≠ t) :
    ∀ l, rowFor (updFirst t f l) t' = rowFor l t' := by
  intro l
  induction l with
  | nil => rfl
  | cons s rest ih =>
    by_cases h : s.team_name = t
    · have h1 : ¬((f s).team_name = t') := by
        rw [hf s, h]; exact fun e => hne e.symm
      have h2 : ¬(s.team_name = t') := by
        rw [h]; exact fun e => hne e.symm
      rw [updFirst, if_pos h, rowFor, rowFor,
        List.find?_cons_of_neg _ (by simpa using h1),
        List.find?_cons_of_neg _ (by simpa using h2)]
    · by_cases h' : s.team_name = t'
      · rw [updFirst, if_neg h, rowFor, rowFor,
          List.find?_cons_of_pos _ (by simpa using h'),
          List.find?_cons_of_pos _ (by simpa using h')]
      · rw [updFirst, if_neg h, rowFor, rowFor,
          List.find?_cons_of_neg _ (by simpa using h'),
          List.find?_cons_of_neg _ (by simpa using h')]
        exact ih

theorem rowFor_eq_none {l : List GroupStanding} {t : PyStr} :
    rowFor l t = none ↔ containsTeam l t = false := by
  simp [rowFor, containsTeam, List.find?_eq_none, List.any_eq_false]

theorem rowFor_mem {l : List GroupStanding} {t : PyStr} {s : GroupStanding}
    (h : rowFor l t = some s) : s ∈ l ∧ s.team_name = t := by
  refine ⟨List.mem_of_find?_eq_some h, ?_⟩
  have := List.find?_some h
  simpa using this

theorem rowFor_of_nodup {l : List GroupStanding} {s : GroupStanding}
    (hnd : (teamNames l).Nodup) (hs : s ∈ l) :
    rowFor l s.team_name = some s := by
  induction l with
  | nil => cases hs
  | cons a rest ih =>
    have hnd' : (a.team_name :: teamNames rest).Nodup := by
      simpa [teamNames] using hnd
    rcases List.mem_cons.mp hs with rfl | hs
    · rw [rowFor, List.find?_cons_of_pos _ (by simp)]
    · have hna : ¬(a.team_name = s.team_name) := by
        intro hc
        exact (List.nodup_cons.mp hnd').1
          (hc ▸ List.mem_map.mpr ⟨s, hs, rfl⟩)
      rw [rowFor, List.find?_cons_of_neg _ (by simpa using hna)]
      exact ih (by simpa [teamNames] using (List.nodup_cons.mp hnd').2) hs

/-! ### The initialisation phase: presence, uniqueness, domain of keys -/

theorem teamNames_addTeam_mem {gl l t} {u : PyStr} (hu : u ∈ teamNames l) :
    u ∈ teamNames (addTeam gl l t) := by
  unfold addTeam
  split
  · exact hu
  · simp only [teamNames, List.map_append] at *
    exact List.mem_append_left _ hu

theorem teamNames_addTeam_self (gl : PyStr) (l : List GroupStanding) (t : PyStr) :
    t ∈ teamNames (addTeam gl l t) := by
  unfold addTeam
  split
  · exact containsTeam_iff.mp (by assumption)
  · simp [teamNames, newStanding]

theorem teamNames_addTeam_sub {gl l t} {u : PyStr}
    (hu : u ∈ teamNames (addTeam gl l t)) : u ∈ teamNames l ∨ u = t := by
  unfold addTeam at hu
  split at hu
  · exact Or.inl hu
  · simp only [teamNames, List.map_append] at hu
    rcases List.mem_append.mp hu with h | h
    · exact Or.inl h
    · simp [newStanding] at h
      exact Or.inr h

theorem teamNames_addTeam_nodup {gl l t} (h : (teamNames l).Nodup) :
    (teamNames (addTeam gl l t)).Nodup := by
  unfold addTeam
  split
  · exact h
  · rename_i hc
    have ht : t ∉ teamNames l := fun hm =>
      by simp [containsTeam_iff.mpr hm] at hc
    have : teamNames (l ++ [newStanding gl t]) = teamNames l ++ [t] := by
      simp [teamNames, newStanding]
    rw [this]
    exact List.Nodup.append h (List.nodup_singleton t)
      ((List.disjoint_singleton).mpr ht)

theorem initFromResults_fold_mono (gl : PyStr) :
    ∀ (rs : List MatchResult) (acc : List GroupStanding) (u : PyStr),
      u ∈ teamNames acc →
      u ∈ teamNames (rs.foldl
        (fun acc m => addTeam gl (addTeam gl acc m.home_team) m.away_team) acc) := by
  intro rs
  induction rs with
  | nil => intro acc u hu; exact hu
  | cons r rs ih =>
    intro acc u hu
    exact ih _ u (teamNames_addTeam_mem (teamNames_addTeam_mem hu))

theorem initFromResults_mem {gl results} {m : MatchResult} (hm : m ∈ results) :
    m.home_team ∈ teamNames (initFromResults gl results)
      ∧ m.away_team ∈ teamNames (initFromResults gl results) := by
  have main : ∀ (rs : List MatchResult) (acc : List GroupStanding)
      (m : MatchResult), m ∈ rs →
      m.home_team ∈ teamNames (rs.foldl
        (fun acc m => addTeam gl (addTeam gl acc m.home_team) m.away_team) acc)
      ∧ m.away_team ∈ teamNames (rs.foldl
        (fun acc m => addTeam gl (addTeam gl acc m.home_team) m.away_team) acc) := by
    intro rs
    induction rs with
    | nil => intro acc m hm; cases hm
    | cons r rs ih =>
      intro acc m hm
      rw [List.foldl_cons]
      rcases List.mem_cons.mp hm with rfl | hm
      · constructor
        · exact initFromResults_fold_mono gl rs _ _
            (teamNames_addTeam_mem (teamNames_addTeam_self gl _ _))
        · exact initFromResults_fold_mono gl rs _ _
            (teamNames_addTeam_self gl _ _)
      · exact ih _ m hm
  exact main results [] m hm

theorem initFromCards_mem_mono {gl cards} {l : List GroupStanding} {u : PyStr}
    (hu : u ∈ teamNames l) : u ∈ teamNames (initFromCards gl cards l) := by
  unfold initFromCards
  induction cards generalizing l with
  | nil => exact hu
  | cons c cs ih => exact ih (teamNames_addTeam_mem hu)

theorem initFromCards_mem {gl} {cards : List CardData} {l : List GroupStanding}
    {c : CardData} (hc : c ∈ cards) :
    c.team_name ∈ teamNames (initFromCards gl cards l) := by
  induction cards generalizing l with
  | nil => cases hc
  | cons d cs ih =>
    have hrw : initFromCards gl (d :: cs) l
        = initFromCards gl cs (addTeam gl l d.team_name) := rfl
    rw [hrw]
    rcases List.mem_cons.mp hc with rfl | hc
    · exact initFromCards_mem_mono (teamNames_addTeam_self gl l c.team_name)
    · exact ih hc

theorem initFromResults_nodup (gl : PyStr) (results : List MatchResult) :
    (teamNames (initFromResults gl results)).Nodup := by
  unfold initFromResults
  have step : ∀ (rs : List MatchResult) (acc : List GroupStanding),
      (teamNames acc).Nodup →
      (teamNames (rs.foldl
        (fun acc m => addTeam gl (addTeam gl acc m.home_team) m.away_team) acc)).Nodup := by
    intro rs
    induction rs with
    | nil => intro acc h; exact h
    | cons r rs ih =>
      intro acc h
      exact ih _ (teamNames_addTeam_nodup (teamNames_addTeam_nodup h))
  exact step results [] (by simp [teamNames])

theorem initFromCards_nodup {gl cards} {l : List GroupStanding}
    (h : (teamNames l).Nodup) : (teamNames (initFromCards gl cards l)).Nodup := by
  unfold initFromCards
  induction cards generalizing l with
  | nil => exact h
  | cons c cs ih => exact ih (teamNames_addTeam_nodup h)

theorem initFromResults_names_sub {gl results} {u : PyStr}
    (hu : u ∈ teamNames (initFromResults gl results)) :
    ∃ m ∈ results, u = m.home_team ∨ u = m.away_team := by
  unfold initFromResults at hu
  have step : ∀ (rs : List MatchResult) (acc : List GroupStanding),
      u ∈ teamNames (rs.foldl
        (fun acc m => addTeam gl (addTeam gl acc m.home_team) m.away_team) acc) →
      u ∈ teamNames acc ∨ ∃ m ∈ rs, u = m.home_team ∨ u = m.away_team := by
    intro rs
    induction rs with
    | nil => intro acc h; exact Or.inl h
    | cons r rs ih =>
      intro acc h
      rcases ih _ h with h' | ⟨m, hm, hum⟩
      · rcases teamNames_addTeam_sub h' with h'' | rfl
        · rcases teamNames_addTeam_sub h'' with h3 | rfl
          · exact Or.inl h3
          · exact Or.inr ⟨r, List.mem_cons_self r rs, Or.inl rfl⟩
        · exact Or.inr ⟨r, List.mem_cons_self r rs, Or.inr rfl⟩
      · exact Or.inr ⟨m, List.mem_cons_of_mem r hm, hum⟩
  rcases step results [] hu with h | h
  · simp [teamNames] at h
  · exact h

/-! ### Name preservation through the later phases -/

theorem teamNames_processMatch (l : List GroupStanding) (m : MatchResult) :
    teamNames (processMatch l m) = teamNames l := by
  unfold processMatch
  rw [teamNames_updFirst m.away_team (applyResult m.away_score m.home_score)
      (fun _ => rfl),
    teamNames_updFirst m.home_team (applyResult m.home_score m.away_score)
      (fun _ => rfl)]

theorem teamNames_foldResults (results : List MatchResult) (l : List GroupStanding) :
    teamNames (results.foldl processMatch l) = teamNames l := by
  induction results generalizing l with
  | nil => rfl
  | cons r rs ih => rw [List.foldl_cons, ih, teamNames_processMatch]

theorem teamNames_recomputeGD (l : List GroupStanding) :
    teamNames (recomputeGD l) = teamNames l := by
  simp [teamNames, recomputeGD]

theorem teamNames_applyCards (l : List GroupStanding) (cards : List CardData) :
    teamNames (applyCards l cards) = teamNames l := by
  unfold applyCards
  induction cards generalizing l with
  | nil => rfl
  | cons c cs ih =>
    rw [List.foldl_cons, ih]
    split
    · rw [teamNames_updFirst c.team_name
        (fun s => { s with fair_play_points := cardPenalty c }) (fun _ => rfl)]
    · rfl

/-- Everything except `rank` and `predicted_rank`, as a tuple: rank
assignment preserves these fields. -/
def stats (s : GroupStanding) :
    PyStr × PyStr × Int × Int × Int × Int × Int × Int × Int × Int × Int :=
  (s.team_name, s.group_letter, s.played, s.won, s.draw, s.lost, s.goals_for,
   s.goals_against, s.goal_difference, s.points, s.fair_play_points)

theorem applyRank_stats (pm : Option PredMap) (i : Nat) (s : GroupStanding) :
    stats (applyRank pm i s) = stats s := by
  unfold applyRank
  dsimp only
  split
  · split <;> rfl
  · rfl

theorem applyRank_rank (pm : Option PredMap) (i : Nat) (s : GroupStanding) :
    (applyRank pm i s).rank = (i : Int) + 1 := by
  unfold applyRank
  dsimp only
  split
  · split <;> rfl
  · rfl

theorem applyRank_name (pm : Option PredMap) (i : Nat) (s : GroupStanding) :
    (applyRank pm i s).team_name = s.team_name :=
  congrArg (·.1) (applyRank_stats pm i s)

theorem teamNames_assignRanksFrom (pm : Option PredMap) :
    ∀ (i : Nat) (l : List GroupStanding),
      teamNames (assignRanksFrom pm i l) = teamNames l := by
  intro i l
  induction l generalizing i with
  | nil => rfl
  | cons s rest ih =>
    rw [assignRanksFrom]
    simp only [teamNames, List.map_cons, applyRank_name]
    exact congrArg _ (ih (i + 1))

theorem assignRanksFrom_mem_stats (pm : Option PredMap) :
    ∀ (i : Nat) (l : List GroupStanding) (x : GroupStanding),
      x ∈ assignRanksFrom pm i l → ∃ s ∈ l, stats x = stats s := by
  intro i l
  induction l generalizing i with
  | nil => intro x hx; cases hx
  | cons s rest ih =>
    intro x hx
    rw [assignRanksFrom] at hx
    rcases List.mem_cons.mp hx with rfl | hx
    · exact ⟨s, List.mem_cons_self s rest, applyRank_stats pm i s⟩
    · rcases ih (i + 1) x hx with ⟨s', hs', hst⟩
      exact ⟨s', List.mem_cons_of_mem s hs', hst⟩

theorem assignRanksFrom_map_rank (pm : Option PredMap) :
    ∀ (i : Nat) (l : List GroupStanding),
      (assignRanksFrom pm i l).map (·.rank)
        = (List.range l.length).map (fun k => ((i + k : Nat) : Int) + 1) := by
  intro i l
  induction l generalizing i with
  | nil => rfl
  | cons s rest ih =>
    rw [assignRanksFrom, List.map_cons, applyRank_rank, ih (i + 1),
      List.length_cons, List.range_succ_eq_map, List.map_cons, List.map_map]
    congr 1
    simp
    intro a _
    omega

/-! ### Sortedness, permutation, and strict precedence in the sorters -/

theorem sort_standings_perm (l : List GroupStanding) :
    (sort_standings l).Perm l :=
  List.perm_insertionSort standingLE l

theorem sort_standings_with_ai_perm (l : List GroupStanding) (pm : Option PredMap) :
    (sort_standings_with_ai l pm).Perm l :=
  List.perm_insertionSort (standingLEAI pm) l

theorem sort_standings_pairwise (l : List GroupStanding) :
    (sort_standings l).Pairwise standingLE :=
  List.sorted_insertionSort standingLE l

theorem sort_standings_with_ai_pairwise (l : List GroupStanding) (pm : Option PredMap) :
    (sort_standings_with_ai l pm).Pairwise (standingLEAI pm) :=
  List.sorted_insertionSort (standingLEAI pm) l

/-- In a list pairwise-ordered by `r`, an element strictly below
another (`r b a` fails, `r a a` holds) appears at a strictly earlier
position. -/
theorem pairwise_strict_before {α : Type} {r : α → α → Prop} {l : List α}
    (hpw : l.Pairwise r) {a b : α} (haa : r a a) (hba : ¬ r b a) :
    ∀ (i j : Nat) (hi : i < l.length) (hj : j < l.length),
      l[i] = a → l[j] = b → i < j := by
  intro i j hi hj ha hb
  by_contra hij
  push_neg at hij
  rcases Nat.eq_or_lt_of_le hij with heq | hlt
  · subst heq
    have hab : a = b := by rw [← ha, ← hb]
    subst hab
    exact hba haa
  · have hle := (List.pairwise_iff_getElem.mp hpw) j i hj hi hlt
    rw [ha, hb] at hle
    exact hba hle

/-- Tied on points, goal difference and goals-for, the strictly greater
fair-play score gives a strictly smaller plain sort key. -/
theorem sortKey_lt_of_fpp {a b : GroupStanding} (hp : a.points = b.points)
    (hgd : a.goal_difference = b.goal_difference) (hgf : a.goals_for = b.goals_for)
    (hfp : b.fair_play_points < a.fair_play_points) : sortKey a < sortKey b := by
  show List.Lex (· < ·) (sortKey a) (sortKey b)
  unfold sortKey
  rw [hp, hgd, hgf]
  exact List.Lex.cons (List.Lex.cons (List.Lex.cons (List.Lex.rel (by omega))))

/-- The same, for the AI-aware key. -/
theorem sortKeyAI_lt_of_fpp (pm : Option PredMap) {a b : GroupStanding}
    (hp : a.points = b.points) (hgd : a.goal_difference = b.goal_difference)
    (hgf : a.goals_for = b.goals_for)
    (hfp : b.fair_play_points < a.fair_play_points) :
    sortKeyAI pm a < sortKeyAI pm b := by
  show List.Lex (· < ·) (sortKeyAI pm a) (sortKeyAI pm b)
  unfold sortKeyAI
  rw [hp, hgd, hgf]
  exact List.Lex.cons (List.Lex.cons (List.Lex.cons (List.Lex.rel (by omega))))

/-! ### Row invariants (counts, points, goal difference) -/

/-- The counting invariant: `played = won + draw + lost` and
`points = 3*won + draw`. -/
def InvRow (s : GroupStanding) : Prop :=
  s.played = s.won + s.draw + s.lost ∧ s.points = 3 * s.won + s.draw

theorem stats_eq_fields {x s : GroupStanding} (h : stats x = stats s) :
    x.team_name = s.team_name ∧ x.played = s.played ∧ x.won = s.won
      ∧ x.draw = s.draw ∧ x.lost = s.lost ∧ x.goals_for = s.goals_for
      ∧ x.goals_against = s.goals_against
      ∧ x.goal_difference = s.goal_difference ∧ x.points = s.points
      ∧ x.fair_play_points = s.fair_play_points := by
  simp only [stats, Prod.mk.injEq] at h
  exact ⟨h.1, h.2.2.1, h.2.2.2.1, h.2.2.2.2.1, h.2.2.2.2.2.1, h.2.2.2.2.2.2.1,
    h.2.2.2.2.2.2.2.1, h.2.2.2.2.2.2.2.2.1, h.2.2.2.2.2.2.2.2.2.1,
    h.2.2.2.2.2.2.2.2.2.2⟩

theorem newStanding_inv (gl t : PyStr) : InvRow (newStanding gl t) := by
  simp [newStanding, InvRow]

theorem addTeam_forall {P : GroupStanding → Prop} {gl t l}
    (hP : P (newStanding gl t)) (h : ∀ x ∈ l, P x) :
    ∀ x ∈ addTeam gl l t, P x := by
  unfold addTeam
  split
  · exact h
  · intro x hx
    rcases List.mem_append.mp hx with hx | hx
    · exact h x hx
    · rcases List.mem_singleton.mp hx with rfl
      exact hP

theorem initFromResults_forall {P : GroupStanding → Prop}
    (hP : ∀ gl t, P (newStanding gl t)) (gl : PyStr) (results : List MatchResult) :
    ∀ x ∈ initFromResults gl results, P x := by
  have main : ∀ (rs : List MatchResult) (acc : List GroupStanding),
      (∀ x ∈ acc, P x) →
      ∀ x ∈ rs.foldl
        (fun acc m => addTeam gl (addTeam gl acc m.home_team) m.away_team) acc, P x := by
    intro rs
    induction rs with
    | nil => intro acc h; exact h
    | cons r rs ih =>
      intro acc h
      rw [List.foldl_cons]
      exact ih _ (addTeam_forall (hP gl _) (addTeam_forall (hP gl _) h))
  exact main results [] (by intro x hx; cases hx)

theorem initFromCards_forall {P : GroupStanding → Prop}
    (hP : ∀ gl t, P (newStanding gl t)) (gl : PyStr) (cards : List CardData)
    {l : List GroupStanding} (h : ∀ x ∈ l, P x) :
    ∀ x ∈ initFromCards gl cards l, P x := by
  induction cards generalizing l with
  | nil => exact h
  | cons c cs ih => exact ih (addTeam_forall (hP gl _) h)

theorem applyResult_inv {s : GroupStanding} (gf ga : Int) (h : InvRow s) :
    InvRow (applyResult gf ga s) := by
  rcases h with ⟨h1, h2⟩
  unfold InvRow applyResult
  rcases lt_trichotomy gf ga with hlt | heq | hgt
  · constructor <;> simp [not_lt_of_gt hlt, hlt, ne_of_lt hlt] <;> omega
  · constructor <;> simp [heq] <;> omega
  · constructor <;> simp [not_lt_of_gt hgt, hgt, ne_of_gt hgt] <;> omega

theorem processMatch_inv {l : List GroupStanding} (m : MatchResult)
    (h : ∀ x ∈ l, InvRow x) : ∀ x ∈ processMatch l m, InvRow x := by
  unfold processMatch
  apply updFirst_forall
  · exact fun s => applyResult_inv _ _
  · apply updFirst_forall
    · exact fun s => applyResult_inv _ _
    · exact h

theorem foldResults_inv (results : List MatchResult) {l : List GroupStanding}
    (h : ∀ x ∈ l, InvRow x) : ∀ x ∈ results.foldl processMatch l, InvRow x := by
  induction results generalizing l with
  | nil => exact h
  | cons r rs ih => exact ih (processMatch_inv r h)

/-- After the goal-difference pass: counting invariant plus the
goal-difference identity. -/
def RowOK (s : GroupStanding) : Prop :=
  InvRow s ∧ s.goal_difference = s.goals_for - s.goals_against

theorem recomputeGD_ok {l : List GroupStanding} (h : ∀ x ∈ l, InvRow x) :
    ∀ x ∈ recomputeGD l, RowOK x := by
  intro x hx
  rcases List.mem_map.mp hx with ⟨s, hs, rfl⟩
  have := h s hs
  unfold RowOK InvRow at *
  refine ⟨⟨this.1, this.2⟩, rfl⟩

theorem applyCards_ok {l : List GroupStanding} (cards : List CardData)
    (h : ∀ x ∈ l, RowOK x) : ∀ x ∈ applyCards l cards, RowOK x := by
  unfold applyCards
  induction cards generalizing l with
  | nil => exact h
  | cons c cs ih =>
    rw [List.foldl_cons]
    apply ih
    split
    · refine updFirst_forall _ _ ?_ h
      intro s hs
      unfold RowOK InvRow at *
      exact hs
    · exact h

theorem sortDispatch_mem {pm : Option PredMap} {l : List GroupStanding}
    {x : GroupStanding} : x ∈ sortDispatch pm l ↔ x ∈ l := by
  unfold sortDispatch
  split
  · exact (sort_standings_with_ai_perm l pm).mem_iff
  · exact (sort_standings_perm l).mem_iff

/-! ### Points bookkeeping for conservation -/

/-- Total points over the table. -/
def sumPoints (l : List GroupStanding) : Int := (l.map (·.points)).sum

theorem sumPoints_updFirst (t : PyStr) (f : GroupStanding → GroupStanding)
    (δ : Int) (hf : ∀ s, (f s).points = s.points + δ) :
    ∀ l, sumPoints (updFirst t f l)
      = sumPoints l + (if containsTeam l t then δ else 0) := by
  intro l
  induction l with
  | nil => simp [sumPoints, updFirst, containsTeam]
  | cons s rest ih =>
    by_cases h : s.team_name = t
    · rw [updFirst, if_pos h]
      have hc : containsTeam (s :: rest) t = true := by
        simp [containsTeam, h]
      rw [hc, if_pos rfl]
      simp only [sumPoints, List.map_cons, List.sum_cons, hf]
      ring
    · rw [updFirst, if_neg h]
      have hc : containsTeam (s :: rest) t = containsTeam rest t := by
        simp [containsTeam, h]
      rw [hc]
      simp only [sumPoints, List.map_cons, List.sum_cons] at *
      rw [ih]
      split <;> ring

theorem containsTeam_updFirst (t : PyStr) (f : GroupStanding → GroupStanding)
    (hf : ∀ s, (f s).team_name = s.team_name) (l : List GroupStanding) (u : PyStr) :
    containsTeam (updFirst t f l) u = containsTeam l u := by
  rw [Bool.eq_iff_iff, containsTeam_iff, containsTeam_iff,
    teamNames_updFirst t f hf]

theorem applyResult_points (gf ga : Int) (s : GroupStanding) :
    (applyResult gf ga s).points
      = s.points + (if gf > ga then 3 else if ga > gf then 0 else 1) := rfl

theorem sumPoints_processMatch {l : List GroupStanding} (m : MatchResult)
    (hh : containsTeam l m.home_team) (ha : containsTeam l m.away_team) :
    sumPoints (processMatch l m)
      = sumPoints l + (if m.home_score = m.away_score then 2 else 3) := by
  unfold processMatch
  rw [sumPoints_updFirst m.away_team (applyResult m.away_score m.home_score)
      (if m.away_score > m.home_score then 3
        else if m.home_score > m.away_score then 0 else 1)
      (fun s => applyResult_points _ _ s),
    sumPoints_updFirst m.home_team (applyResult m.home_score m.away_score)
      (if m.home_score > m.away_score then 3
        else if m.away_score > m.home_score then 0 else 1)
      (fun s => applyResult_points _ _ s),
    containsTeam_updFirst m.home_team (applyResult m.home_score m.away_score)
      (fun _ => rfl),
    if_pos hh, if_pos ha]
  split_ifs <;> omega

/-- The number of decisive results (`home_score != away_score`). -/
def decisiveCount : List MatchResult → Nat
  | [] => 0
  | m :: rest => (if m.home_score = m.away_score then 0 else 1) + decisiveCount rest

/-- The number of drawn results (`home_score == away_score`). -/
def drawCount : List MatchResult → Nat
  | [] => 0
  | m :: rest => (if m.home_score = m.away_score then 1 else 0) + drawCount rest

theorem sumPoints_foldResults (results : List MatchResult) :
    ∀ (l : List GroupStanding),
      (∀ m ∈ results, containsTeam l m.home_team ∧ containsTeam l m.away_team) →
      sumPoints (results.foldl processMatch l)
        = sumPoints l + 3 * (decisiveCount results : Int)
          + 2 * (drawCount results : Int) := by
  induction results with
  | nil => intro l _; simp [decisiveCount, drawCount]
  | cons r rs ih =>
    intro l hc
    rw [List.foldl_cons]
    have hcr := hc r (List.mem_cons_self r rs)
    have hcs : ∀ m ∈ rs, containsTeam (processMatch l r) m.home_team
        ∧ containsTeam (processMatch l r) m.away_team := by
      intro m hm
      have hm' := hc m (List.mem_cons_of_mem r hm)
      unfold processMatch
      rw [containsTeam_updFirst r.away_team
          (applyResult r.away_score r.home_score) (fun _ => rfl),
        containsTeam_updFirst r.home_team
          (applyResult r.home_score r.away_score) (fun _ => rfl),
        containsTeam_updFirst r.away_team
          (applyResult r.away_score r.home_score) (fun _ => rfl),
        containsTeam_updFirst r.home_team
          (applyResult r.home_score r.away_score) (fun _ => rfl)]
      exact hm'
    rw [ih _ hcs, sumPoints_processMatch r hcr.1 hcr.2,
      decisiveCount, drawCount]
    by_cases hd : r.home_score = r.away_score
    · rw [if_pos hd, if_pos hd, if_pos hd]
      push_cast
      ring
    · rw [if_neg hd, if_neg hd, if_neg hd]
      push_cast
      ring

theorem sumPoints_recomputeGD (l : List GroupStanding) :
    sumPoints (recomputeGD l) = sumPoints l := by
  simp only [sumPoints, recomputeGD, List.map_map]
  rfl

theorem sumPoints_applyCards (cards : List CardData) :
    ∀ (l : List GroupStanding), sumPoints (applyCards l cards) = sumPoints l := by
  induction cards with
  | nil => intro l; rfl
  | cons c cs ih =>
    intro l
    have hstep : applyCards l (c :: cs)
        = applyCards (if containsTeam l c.team_name then
            updFirst c.team_name
              (fun s => { s with fair_play_points := cardPenalty c }) l
          else l) cs := rfl
    rw [hstep, ih]
    split
    · rw [sumPoints_updFirst c.team_name
        (fun s => { s with fair_play_points := cardPenalty c }) 0
        (fun s => by simp)]
      split <;> ring
    · rfl

theorem sumPoints_perm {l l' : List GroupStanding} (h : l.Perm l') :
    sumPoints l = sumPoints l' := by
  unfold sumPoints
  exact List.Perm.sum_eq (List.Perm.map (fun s => s.points) h)

theorem sumPoints_sortDispatch (pm : Option PredMap) (l : List GroupStanding) :
    sumPoints (sortDispatch pm l) = sumPoints l := by
  unfold sortDispatch
  split
  · exact sumPoints_perm (sort_standings_with_ai_perm l pm)
  · exact sumPoints_perm (sort_standings_perm l)

theorem applyRank_points (pm : Option PredMap) (i : Nat) (s : GroupStanding) :
    (applyRank pm i s).points = s.points :=
  (stats_eq_fields (applyRank_stats pm i s)).2.2.2.2.2.2.2.2.1

theorem sumPoints_assignRanksFrom (pm : Option PredMap) :
    ∀ (i : Nat) (l : List GroupStanding),
      sumPoints (assignRanksFrom pm i l) = sumPoints l := by
  intro i l
  induction l generalizing i with
  | nil => rfl
  | cons s rest ih =>
    rw [assignRanksFrom]
    simp only [sumPoints, List.map_cons, List.sum_cons, applyRank_points] at *
    rw [ih (i + 1)]

/-! ### The fair-play pass, record by record -/

/-- The card records mentioning team `t`, in order. -/
def cardsFor (cards : List CardData) (t : PyStr) : List CardData :=
  cards.filter (fun c => decide (c.team_name = t))

theorem getLast?_cons_eq {α : Type} (c : α) (l : List α) :
    (c :: l).getLast? = some (l.getLast?.getD c) := by
  induction l generalizing c with
  | nil => rfl
  | cons d l ih =>
    rw [List.getLast?_cons_cons, ih d]
    rfl

/-- What the card pass does to the row for team `t`: the **last** card
record for `t` (if any) overwrites its fair-play points. -/
theorem applyCards_rowFor (cards : List CardData) :
    ∀ (l : List GroupStanding) (t : PyStr),
      rowFor (applyCards l cards) t = (rowFor l t).map (fun s =>
        match (cardsFor cards t).getLast? with
        | some c => { s with fair_play_points := cardPenalty c }
        | none => s) := by
  induction cards with
  | nil =>
    intro l t
    show rowFor l t = _
    cases rowFor l t <;> rfl
  | cons c cs ih =>
    intro l t
    have hstep : applyCards l (c :: cs)
        = applyCards (if containsTeam l c.team_name then
            updFirst c.team_name
              (fun s => { s with fair_play_points := cardPenalty c }) l
          else l) cs := rfl
    rw [hstep, ih]
    by_cases hpres : containsTeam l c.team_name
    · rw [if_pos hpres]
      by_cases hct : c.team_name = t
      · subst hct
        have hfilter : cardsFor (c :: cs) c.team_name
            = c :: cardsFor cs c.team_name := by
          simp [cardsFor, List.filter_cons]
        rw [hfilter, getLast?_cons_eq,
          rowFor_updFirst c.team_name
            (fun s => { s with fair_play_points := cardPenalty c })
            (fun _ => rfl) l]
        cases hrow : rowFor l c.team_name with
        | none => rfl
        | some s =>
          cases hlast : (cardsFor cs c.team_name).getLast? with
          | none => rfl
          | some c'' => rfl
      · have hfilter : cardsFor (c :: cs) t = cardsFor cs t := by
          simp [cardsFor, List.filter_cons, hct]
        rw [hfilter, rowFor_updFirst_ne c.team_name t
          (fun s => { s with fair_play_points := cardPenalty c })
          (fun _ => rfl) (fun e => hct e.symm) l]
    · rw [if_neg hpres]
      by_cases hct : c.team_name = t
      · subst hct
        have hfilter : cardsFor (c :: cs) c.team_name
            = c :: cardsFor cs c.team_name := by
          simp [cardsFor, List.filter_cons]
        have hnone : rowFor l c.team_name = none := by
          rw [rowFor_eq_none]
          cases hcb : containsTeam l c.team_name
          · rfl
          · exact absurd hcb hpres
        rw [hfilter, hnone]
        rfl
      · have hfilter : cardsFor (c :: cs) t = cardsFor cs t := by
          simp [cardsFor, List.filter_cons, hct]
        rw [hfilter]

/-! ### The table as it stands just before sorting -/

/-- The fully aggregated (unsorted, unranked) table of
`calculate_standings`. -/
def tableBeforeSort (gl : PyStr) (results : List MatchResult)
    (cards : Option (List CardData)) : List GroupStanding :=
  applyCards
    (recomputeGD (results.foldl processMatch
      (initFromCards gl (cards.getD []) (initFromResults gl results))))
    (cards.getD [])

theorem calculate_standings_eq (gl : PyStr) (results : List MatchResult)
    (cards : Option (List CardData)) (pm : Option PredMap) :
    calculate_standings gl results cards pm
      = assignRanksFrom pm 0 (sortDispatch pm (tableBeforeSort gl results cards)) := rfl

theorem calculate_standings_mem_stats {gl results cards pm row}
    (h : row ∈ calculate_standings gl results cards pm) :
    ∃ s ∈ tableBeforeSort gl results cards, stats row = stats s := by
  rw [calculate_standings_eq] at h
  rcases assignRanksFrom_mem_stats pm 0 _ row h with ⟨s, hs, hst⟩
  exact ⟨s, sortDispatch_mem.mp hs, hst⟩

theorem teamNames_tableBeforeSort (gl : PyStr) (results : List MatchResult)
    (cards : Option (List CardData)) :
    teamNames (tableBeforeSort gl results cards)
      = teamNames (initFromCards gl (cards.getD []) (initFromResults gl results)) := by
  unfold tableBeforeSort
  rw [teamNames_applyCards, teamNames_recomputeGD, teamNames_foldResults]

theorem nodup_tableBeforeSort (gl : PyStr) (results : List MatchResult)
    (cards : Option (List CardData)) :
    (teamNames (tableBeforeSort gl results cards)).Nodup := by
  rw [teamNames_tableBeforeSort]
  exact initFromCards_nodup (initFromResults_nodup gl results)

/-- Before the card pass, every row's fair-play points are 0. -/
theorem fpp_zero_beforeCards (gl : PyStr) (results : List MatchResult)
    (cards : Option (List CardData)) :
    ∀ x ∈ recomputeGD (results.foldl processMatch
      (initFromCards gl (cards.getD []) (initFromResults gl results))),
      x.fair_play_points = 0 := by
  intro x hx
  rcases List.mem_map.mp hx with ⟨s, hs, rfl⟩
  show s.fair_play_points = 0
  have hinit : ∀ y ∈ initFromCards gl (cards.getD []) (initFromResults gl results),
      y.fair_play_points = 0 := by
    apply initFromCards_forall
    · exact fun gl t => rfl
    · apply initFromResults_forall
      exact fun gl t => rfl
  have hfold : ∀ (rs : List MatchResult) (l : List GroupStanding),
      (∀ y ∈ l, y.fair_play_points = 0) →
      ∀ y ∈ rs.foldl processMatch l, y.fair_play_points = 0 := by
    intro rs
    induction rs with
    | nil => intro l h; exact h
    | cons r rs ih =>
      intro l h
      rw [List.foldl_cons]
      apply ih
      unfold processMatch
      apply updFirst_forall
      · exact fun s hs => hs
      · apply updFirst_forall
        · exact fun s hs => hs
        · exact h
  exact hfold results _ hinit s hs

/-- The fair-play points of a row of the final output: determined by the
last card record for its team, or 0 when it has none. -/
theorem calc_fpp {gl : PyStr} {results : List MatchResult} {cards : List CardData}
    {pm : Option PredMap} {row : GroupStanding} {t : PyStr}
    (h : row ∈ calculate_standings gl results (some cards) pm)
    (hname : row.team_name = t) :
    (∀ c, (cardsFor cards t).getLast? = some c
      → row.fair_play_points = cardPenalty c)
    ∧ (cardsFor cards t = [] → row.fair_play_points = 0) := by
  rcases calculate_standings_mem_stats h with ⟨s, hs, hst⟩
  have hf := stats_eq_fields hst
  have hsname : s.team_name = t := hf.1 ▸ hname
  have hfpp : row.fair_play_points = s.fair_play_points :=
    hf.2.2.2.2.2.2.2.2.2
  have hnd := nodup_tableBeforeSort gl results (some cards)
  have hrowFor : rowFor (tableBeforeSort gl results (some cards)) t = some s := by
    rw [← hsname]
    exact rowFor_of_nodup hnd hs
  have hchar := applyCards_rowFor cards
    (recomputeGD (results.foldl processMatch
      (initFromCards gl ((some cards : Option (List CardData)).getD [])
        (initFromResults gl results)))) t
  rw [show applyCards
      (recomputeGD (results.foldl processMatch
        (initFromCards gl ((some cards : Option (List CardData)).getD [])
          (initFromResults gl results)))) cards
    = tableBeforeSort gl results (some cards) from rfl, hrowFor] at hchar
  rcases hrem : rowFor (recomputeGD (results.foldl processMatch
      (initFromCards gl ((some cards : Option (List CardData)).getD [])
        (initFromResults gl results)))) t with _ | s3
  · rw [hrem] at hchar
    cases hchar
  · rw [hrem] at hchar
    constructor
    · intro c hc
      rw [hc] at hchar
      have heq : s = { s3 with fair_play_points := cardPenalty c } :=
        Option.some.inj hchar
      rw [hfpp, heq]
    · intro hempty
      rw [hempty] at hchar
      have heq : s = s3 := Option.some.inj hchar
      have hmem3 := (rowFor_mem hrem).1
      have hz := fpp_zero_beforeCards gl results (some cards) s3 hmem3
      rw [hfpp, heq]
      exact hz

/-! ### Claim theorems: the standings calculator -/

/-- C4: For every list of match results passed to the standings
calculator, the sum of points over all returned rows equals 3 times the
number of decisive results plus 2 times the number of drawn results
(each decisive result awards exactly 3 points, each tie 1 point to each
side). -/
theorem points_conservation (gl : PyStr) (results : List MatchResult)
    (cards : Option (List CardData)) (pm : Option PredMap) :
    sumPoints (calculate_standings gl results cards pm)
      = 3 * (decisiveCount results : Int) + 2 * (drawCount results : Int) := by
  have hc : ∀ m ∈ results,
      containsTeam (initFromCards gl (cards.getD [])
        (initFromResults gl results)) m.home_team
      ∧ containsTeam (initFromCards gl (cards.getD [])
        (initFromResults gl results)) m.away_team := by
    intro m hm
    have h1 := @initFromResults_mem gl results m hm
    exact ⟨containsTeam_iff.mpr (initFromCards_mem_mono h1.1),
      containsTeam_iff.mpr (initFromCards_mem_mono h1.2)⟩
  have hz : sumPoints (initFromCards gl (cards.getD [])
      (initFromResults gl results)) = 0 := by
    have hall : ∀ y ∈ initFromCards gl (cards.getD [])
        (initFromResults gl results), y.points = 0 := by
      apply initFromCards_forall
      · exact fun gl t => rfl
      · apply initFromResults_forall
        exact fun gl t => rfl
    unfold sumPoints
    apply List.sum_eq_zero
    intro x hx
    rcases List.mem_map.mp hx with ⟨y, hy, rfl⟩
    exact hall y hy
  rw [calculate_standings_eq, sumPoints_assignRanksFrom, sumPoints_sortDispatch]
  unfold tableBeforeSort
  rw [sumPoints_applyCards, sumPoints_recomputeGD,
    sumPoints_foldResults results _ hc, hz]
  ring

/-- C5: Every row returned by the standings calculator satisfies
`played = won + draw + lost`, `goal_difference = goals_for -
goals_against`, and `points = 3*won + 1*draw`, for any sequence of match
results and cards folded in. -/
theorem standing_row_invariants (gl : PyStr) (results : List MatchResult)
    (cards : Option (List CardData)) (pm : Option PredMap)
    (row : GroupStanding) (h : row ∈ calculate_standings gl results cards pm) :
    row.played = row.won + row.draw + row.lost
      ∧ row.goal_difference = row.goals_for - row.goals_against
      ∧ row.points = 3 * row.won + row.draw := by
  rcases calculate_standings_mem_stats h with ⟨s, hs, hst⟩
  have hok : RowOK s := by
    unfold tableBeforeSort at hs
    refine applyCards_ok _ ?_ s hs
    apply recomputeGD_ok
    apply foldResults_inv
    apply initFromCards_forall
    · exact newStanding_inv
    · apply initFromResults_forall
      exact newStanding_inv
  have hf := stats_eq_fields hst
  rcases hok with ⟨⟨h1, h2⟩, h3⟩
  refine ⟨?_, ?_, ?_⟩
  · rw [hf.2.1, hf.2.2.1, hf.2.2.2.1, hf.2.2.2.2.1]; exact h1
  · rw [hf.2.2.2.2.2.2.2.1, hf.2.2.2.2.2.1, hf.2.2.2.2.2.2.1]; exact h3
  · rw [hf.2.2.2.2.2.2.2.2.1, hf.2.2.1, hf.2.2.2.1]; exact h2

/-- Concrete input exercising `standing_row_invariants`: a single 2–1
result. -/
def c5row : GroupStanding :=
  { team_name := "AA".data, group_letter := "G".data, rank := 1, played := 1,
    won := 1, draw := 0, lost := 0, goals_for := 2, goals_against := 1,
    goal_difference := 1, points := 3, fair_play_points := 0,
    predicted_rank := none }

theorem standing_row_invariants_witness :
    (c5row ∈ calculate_standings "G".data [⟨"AA".data, "BB".data, 2, 1⟩] none none)
    ∧ (c5row.played = c5row.won + c5row.draw + c5row.lost
      ∧ c5row.goal_difference = c5row.goals_for - c5row.goals_against
      ∧ c5row.points = 3 * c5row.won + c5row.draw) :=
  ⟨by decide,
   standing_row_invariants "G".data [⟨"AA".data, "BB".data, 2, 1⟩] none none
     c5row (by decide)⟩

/-- C3: A team's fair-play points equal `-(yellow) - 2*(second_yellow)
- 4*(red)` of its disciplinary record, and a team with no card record
keeps fair-play points 0. -/
theorem fair_play_formula (gl : PyStr) (results : List MatchResult)
    (cards : List CardData) (pm : Option PredMap) (t : PyStr)
    (row : GroupStanding)
    (hrow : row ∈ calculate_standings gl results (some cards) pm)
    (hname : row.team_name = t) :
    (∀ c, cardsFor cards t = [c]
      → row.fair_play_points = -c.yellow - 2 * c.second_yellow - 4 * c.red)
    ∧ (cardsFor cards t = [] → row.fair_play_points = 0) := by
  have h := calc_fpp hrow hname
  constructor
  · intro c hc
    have hpen := h.1 c (by rw [hc]; rfl)
    rw [hpen]
    unfold cardPenalty
    ring
  · exact h.2

/-- The cards of the fair-play arithmetic example: one yellow, one red,
one yellow+second-yellow, one clean sheet. -/
def c3cards : List CardData :=
  [⟨"Team A".data, 1, 0, 0⟩, ⟨"Team B".data, 0, 0, 1⟩,
   ⟨"Team C".data, 1, 1, 0⟩, ⟨"Team D".data, 0, 0, 0⟩]

/-- The output row of `Team A` in the fair-play example. -/
def c3rowA : GroupStanding :=
  { team_name := "Team A".data, group_letter := "A".data, rank := 2,
    fair_play_points := -1 }

theorem fair_play_formula_witness :
    (c3rowA ∈ calculate_standings "A".data [] (some c3cards) none)
    ∧ c3rowA.team_name = "Team A".data
    ∧ cardsFor c3cards "Team A".data = [⟨"Team A".data, 1, 0, 0⟩]
    ∧ c3rowA.fair_play_points = -1 := by
  refine ⟨by decide, by decide, by decide, ?_⟩
  have h := (fair_play_formula "A".data [] c3cards none "Team A".data c3rowA
    (by decide) (by decide)).1 ⟨"Team A".data, 1, 0, 0⟩ (by decide)
  rw [h]
  norm_num

/-- C10: When the cards list contains more than one record for the same
team, the team's fair-play points equal the penalty of the **last**
such record alone — later records overwrite, not add. -/
theorem last_card_overwrites (gl : PyStr) (results : List MatchResult)
    (cards : List CardData) (pm : Option PredMap) (t : PyStr)
    (row : GroupStanding) (c : CardData)
    (hrow : row ∈ calculate_standings gl results (some cards) pm)
    (hname : row.team_name = t)
    (hmulti : 2 ≤ (cardsFor cards t).length)
    (hlast : (cardsFor cards t).getLast? = some c) :
    row.fair_play_points = cardPenalty c :=
  (calc_fpp hrow hname).1 c hlast

/-- Two records for the same team: a yellow followed by a red. -/
def c10cards : List CardData :=
  [⟨"TT".data, 1, 0, 0⟩, ⟨"TT".data, 0, 0, 1⟩]

/-- The output row of the double-carded team: penalty of the red card
alone (−4), not the sum (−5). -/
def c10row : GroupStanding :=
  { team_name := "TT".data, group_letter := "A".data, rank := 1,
    fair_play_points := -4 }

theorem last_card_overwrites_witness :
    (c10row ∈ calculate_standings "A".data [] (some c10cards) none)
    ∧ 2 ≤ (cardsFor c10cards "TT".data).length
    ∧ (cardsFor c10cards "TT".data).getLast? = some ⟨"TT".data, 0, 0, 1⟩
    ∧ c10row.fair_play_points = cardPenalty ⟨"TT".data, 0, 0, 1⟩ :=
  ⟨by decide, by decide, by decide,
   last_card_overwrites "A".data [] c10cards none "TT".data c10row
     ⟨"TT".data, 0, 0, 1⟩ (by decide) (by decide) (by decide) (by decide)⟩

/-! ### Claim theorems: third-place qualification and ranks -/

/-- C6: Third-place qualification extracts the 0-indexed position-2 row
of every group with at least 3 rows (smaller groups contribute nothing),
sorts them with the same comparator used for group standings, and keeps
the top 8: never more than 8 rows, never more than there are eligible
candidates, and an empty (or all-small) groups map gives an empty list
rather than an error. -/
theorem third_place_selection (all : List (PyStr × List GroupStanding)) :
    rank_third_place_teams all = (sort_standings (thirdPlaceCandidates all)).take 8
    ∧ (rank_third_place_teams all).length ≤ 8
    ∧ (rank_third_place_teams all).length ≤ (thirdPlaceCandidates all).length
    ∧ (all = [] → rank_third_place_teams all = [])
    ∧ ((∀ p ∈ all, p.2.length < 3) → rank_third_place_teams all = []) := by
  refine ⟨rfl, ?_, ?_, ?_, ?_⟩
  · exact List.length_take_le 8 _
  · calc (rank_third_place_teams all).length
        ≤ (sort_standings (thirdPlaceCandidates all)).length :=
          List.length_take_le' 8 _
      _ = (thirdPlaceCandidates all).length :=
          (sort_standings_perm _).length_eq
  · intro h; subst h; rfl
  · intro h
    have hcand : thirdPlaceCandidates all = [] := by
      unfold thirdPlaceCandidates
      rw [List.filterMap_eq_nil_iff]
      intro p hp
      rw [if_neg (by have := h p hp; omega)]
    show (sort_standings (thirdPlaceCandidates all)).take 8 = []
    rw [hcand]
    rfl

/-- A single group of fewer than three teams: no third-place
candidates. -/
def c6small : List (PyStr × List GroupStanding) :=
  [("A".data, [{ team_name := "X".data, group_letter := "A".data, rank := 1 }])]

theorem third_place_selection_witness :
    (∀ p ∈ c6small, p.2.length < 3) ∧ rank_third_place_teams c6small = [] :=
  ⟨by decide, (third_place_selection c6small).2.2.2.2 (by decide)⟩

theorem length_assignRanksFrom (pm : Option PredMap) :
    ∀ (i : Nat) (l : List GroupStanding),
      (assignRanksFrom pm i l).length = l.length := by
  intro i l
  induction l generalizing i with
  | nil => rfl
  | cons s rest ih =>
    rw [assignRanksFrom, List.length_cons, List.length_cons, ih (i + 1)]

/-- C9 counterexample: a group whose third row carries rank 3 — the
third-place ranking returns it with rank 3, not ranks 1..N by
position. -/
def c9input : List (PyStr × List GroupStanding) :=
  [("A".data,
    [{ team_name := "P1".data, group_letter := "A".data, rank := 1, points := 9 },
     { team_name := "P2".data, group_letter := "A".data, rank := 2, points := 6 },
     { team_name := "P3".data, group_letter := "A".data, rank := 3, points := 3 }])]

/-- C9 is false as stated: in the third-place use of the sorter, rank
fields are **not** assigned 1..N by position; the single returned row
keeps its group rank 3. -/
theorem sorter_rank_counterexample :
    (rank_third_place_teams c9input).map (·.rank) = [3]
    ∧ ¬((rank_third_place_teams c9input).map (·.rank)
        = (List.range (rank_third_place_teams c9input).length).map
            (fun i : Nat => (i : Int) + 1)) := by
  constructor <;> decide

/-- C9 amended: the group-standings use of the sorter is followed by
rank assignment 1..N by position inside `calculate_standings`, while
`rank_third_place_teams` returns the sorted qualifier rows unchanged —
each returned row is literally one of the input rows, retaining the
rank it was given in its group. -/
theorem rank_assignment_amended :
    (∀ (gl : PyStr) (results : List MatchResult) (cards : Option (List CardData))
      (pm : Option PredMap),
      (calculate_standings gl results cards pm).map (·.rank)
        = (List.range (calculate_standings gl results cards pm).length).map
            (fun i : Nat => (i : Int) + 1))
    ∧ (∀ (all : List (PyStr × List GroupStanding)) (r : GroupStanding),
        r ∈ rank_third_place_teams all → ∃ p ∈ all, r ∈ p.2) := by
  constructor
  · intro gl results cards pm
    rw [calculate_standings_eq, assignRanksFrom_map_rank, length_assignRanksFrom]
    apply List.map_congr_left
    intro k _
    omega
  · intro all r hr
    have hr' : r ∈ sort_standings (thirdPlaceCandidates all) :=
      List.mem_of_mem_take hr
    have hr'' : r ∈ thirdPlaceCandidates all :=
      (sort_standings_perm _).subset hr'
    rcases List.mem_filterMap.mp hr'' with ⟨p, hp, hfp⟩
    refine ⟨p, hp, ?_⟩
    by_cases hlen : p.2.length ≥ 3
    · rw [if_pos hlen] at hfp
      exact List.getElem?_mem hfp
    · rw [if_neg hlen] at hfp
      cases hfp

theorem rank_assignment_amended_witness :
    ({ team_name := "P3".data, group_letter := "A".data, rank := 3, points := 3 }
        ∈ rank_third_place_teams c9input)
    ∧ ∃ p ∈ c9input,
      ({ team_name := "P3".data, group_letter := "A".data, rank := 3,
         points := 3 } : GroupStanding) ∈ p.2 :=
  ⟨by decide,
   rank_assignment_amended.2 c9input
     { team_name := "P3".data, group_letter := "A".data, rank := 3, points := 3 }
     (by decide)⟩

/-! ### Claim theorems: determinism and the hash fallback -/

/-- C1: Two invocations of the standings sort with identical inputs
produce identical orderings of team names (the sort is a pure function
of its arguments), and the final tie-break key component is the
content-based MD5 digest of the UTF-8 encoded team name — never a
process-randomized hash. -/
theorem deterministic_sort (rows rows' : List GroupStanding)
    (pm pm' : Option PredMap) (h1 : rows = rows') (h2 : pm = pm') :
    ((sortDispatch pm rows).map (·.team_name)
      = (sortDispatch pm' rows').map (·.team_name))
    ∧ (∀ gl results cards,
        (calculate_standings gl results cards pm).map (·.team_name)
          = (calculate_standings gl results cards pm').map (·.team_name))
    ∧ (∀ s : GroupStanding,
        (sortKey s).getLast? = some ((teamHash s.team_name : Nat) : Int)
        ∧ (sortKeyAI pm s).getLast? = some ((teamHash s.team_name : Nat) : Int))
    ∧ (∀ n : PyStr, teamHash n = md5Int (utf8Bytes n)) := by
  subst h1
  subst h2
  exact ⟨rfl, fun _ _ _ => rfl, fun s => ⟨rfl, rfl⟩, fun _ => rfl⟩

/-- Two rows distinguished by points, for the determinism witness. -/
def c1rows : List GroupStanding :=
  [{ team_name := "U1".data, group_letter := "B".data, rank := 1, points := 1 },
   { team_name := "U2".data, group_letter := "B".data, rank := 2, points := 4 }]

theorem deterministic_sort_witness :
    (c1rows = c1rows ∧ (none : Option PredMap) = none)
    ∧ (sortDispatch none c1rows).map (·.team_name)
      = (sortDispatch none c1rows).map (·.team_name) :=
  ⟨⟨rfl, rfl⟩, (deterministic_sort c1rows c1rows none none rfl rfl).1⟩

/-! ### Claim theorems: the predicted-standings simulator -/

/-- C8: The simulator keeps only predicted matchups whose home and away
teams both belong to `team_names`, returns the empty map when no such
matchup exists, and otherwise returns the `team_name -> rank` mapping
obtained by running the filtered matchups through the standings
calculator and sorter with no predicted-rank map. -/
theorem predicted_standings_spec (gl : PyStr) (team_names : List PyStr)
    (preds : List Prediction) :
    (filteredMatchups team_names preds = []
      → calculate_predicted_standings gl team_names preds = [])
    ∧ (filteredMatchups team_names preds ≠ []
      → calculate_predicted_standings gl team_names preds
        = (calculate_standings gl (filteredMatchups team_names preds) none none).map
            (fun s => (s.team_name, s.rank)))
    ∧ (∀ m ∈ filteredMatchups team_names preds,
        m.home_team ∈ team_names ∧ m.away_team ∈ team_names)
    ∧ (∀ p ∈ calculate_predicted_standings gl team_names preds,
        p.1 ∈ team_names) := by
  have hmem : ∀ m ∈ filteredMatchups team_names preds,
      m.home_team ∈ team_names ∧ m.away_team ∈ team_names := by
    intro m hm
    unfold filteredMatchups at hm
    rcases List.mem_filterMap.mp hm with ⟨p, _, hfp⟩
    rcases hph : p.home_team_name with _ | h0
    · rcases hpa : p.away_team_name with _ | a0 <;>
        (rw [hph, hpa] at hfp; cases hfp)
    · rcases hpa : p.away_team_name with _ | a0
      · rw [hph, hpa] at hfp
        cases hfp
      · rw [hph, hpa] at hfp
        dsimp only at hfp
        by_cases hin : h0 ∈ team_names ∧ a0 ∈ team_names
        · rw [if_pos hin] at hfp
          cases hfp
          exact hin
        · rw [if_neg hin] at hfp
          cases hfp
  refine ⟨?_, ?_, hmem, ?_⟩
  · intro h
    unfold calculate_predicted_standings
    rw [h]
    rfl
  · intro h
    unfold calculate_predicted_standings
    rw [if_neg (by rw [List.isEmpty_iff]; exact h)]
  · intro p hp
    simp only [calculate_predicted_standings] at hp
    split at hp
    · cases hp
    · rcases List.mem_map.mp hp with ⟨s, hs, rfl⟩
      show s.team_name ∈ team_names
      rcases calculate_standings_mem_stats hs with ⟨s4, hs4, hst⟩
      rw [(stats_eq_fields hst).1]
      have hnames : s4.team_name ∈ teamNames
          (tableBeforeSort gl (filteredMatchups team_names preds) none) :=
        List.mem_map.mpr ⟨s4, hs4, rfl⟩
      rw [teamNames_tableBeforeSort] at hnames
      have hnames' : s4.team_name
          ∈ teamNames (initFromResults gl (filteredMatchups team_names preds)) :=
        hnames
      rcases initFromResults_names_sub hnames' with ⟨m, hm, hum⟩
      rcases hmem m hm with ⟨hh, ha⟩
      rcases hum with h | h
      · rw [h]; exact hh
      · rw [h]; exact ha

/-- A prediction list with one in-group matchup and one foreign
matchup. -/
def c8preds : List Prediction :=
  [⟨some "X".data, some "Y".data, some 2, some 0⟩,
   ⟨some "Q".data, some "Y".data, some 3, some 0⟩]

theorem predicted_standings_spec_witness :
    filteredMatchups ["X".data, "Y".data] c8preds ≠ []
    ∧ calculate_predicted_standings "A".data ["X".data, "Y".data] c8preds
      = (calculate_standings "A".data
          (filteredMatchups ["X".data, "Y".data] c8preds) none none).map
          (fun s => (s.team_name, s.rank)) :=
  ⟨by decide,
   (predicted_standings_spec "A".data ["X".data, "Y".data] c8preds).2.1
     (by decide)⟩

/-! ### Claim theorems: the lexicographic ordering of the sorter -/

/-- C2: The standings sort orders rows lexicographically by points,
goal difference, goals-for, and fair-play points descending, then —
only when a predicted-rank map is supplied — predicted rank ascending
with absent teams behind present ones via the sentinel 999, then the
stable team-name hash; of two teams tied on the first three criteria,
the one whose fair-play score is closer to zero ranks strictly
first. -/
theorem sort_ordering (rows : List GroupStanding) (pm : PredMap) :
    (sort_standings_with_ai rows (some pm)).Pairwise (standingLEAI (some pm))
    ∧ (sort_standings_with_ai rows (some pm)).Perm rows
    ∧ (pm ≠ [] → ∀ s : GroupStanding,
        (dictGet pm s.team_name = none → aiRank (some pm) s = 999)
        ∧ (∀ r, dictGet pm s.team_name = some r → aiRank (some pm) s = r))
    ∧ (∀ pm' : Option PredMap, truthy pm' = false
        → sortDispatch pm' rows = sort_standings rows)
    ∧ (∀ (pm' : Option PredMap) (a b : GroupStanding), a ∈ rows → b ∈ rows →
        a.points = b.points → a.goal_difference = b.goal_difference →
        a.goals_for = b.goals_for → a.fair_play_points ≤ 0 →
        b.fair_play_points ≤ 0 →
        b.fair_play_points < a.fair_play_points →
        ∀ (i j : Nat) (hi : i < (sortDispatch pm' rows).length)
          (hj : j < (sortDispatch pm' rows).length),
          (sortDispatch pm' rows)[i] = a → (sortDispatch pm' rows)[j] = b
          → i < j) := by
  refine ⟨sort_standings_with_ai_pairwise rows (some pm),
    sort_standings_with_ai_perm rows (some pm), ?_, ?_, ?_⟩
  · intro hne s
    have ht : truthy (some pm) = true := by
      cases pm with
      | nil => exact absurd rfl hne
      | cons a l => rfl
    constructor
    · intro hd
      unfold aiRank
      rw [ht, if_pos rfl]
      show (dictGet pm s.team_name).getD 999 = 999
      rw [hd]
      rfl
    · intro r hr
      unfold aiRank
      rw [ht, if_pos rfl]
      show (dictGet pm s.team_name).getD 999 = r
      rw [hr]
      rfl
  · intro pm' h
    unfold sortDispatch
    rw [if_neg (by simp [h])]
  · intro pm' a b _ _ hp hgd hgf _ _ hlt i j hi hj hia hjb
    by_cases ht : truthy pm' = true
    · have hpw : (sortDispatch pm' rows).Pairwise (standingLEAI pm') := by
        unfold sortDispatch
        rw [if_pos ht]
        exact sort_standings_with_ai_pairwise rows pm'
      exact pairwise_strict_before hpw (le_refl (sortKeyAI pm' a))
        (not_le.mpr (sortKeyAI_lt_of_fpp pm' hp hgd hgf hlt))
        i j hi hj hia hjb
    · have hpw : (sortDispatch pm' rows).Pairwise standingLE := by
        unfold sortDispatch
        rw [if_neg ht]
        exact sort_standings_pairwise rows
      exact pairwise_strict_before hpw (le_refl (sortKey a))
        (not_le.mpr (sortKey_lt_of_fpp hp hgd hgf hlt))
        i j hi hj hia hjb

/-- Team Mexico of the tie-break precedence example: 4 points, +1 goal
difference, 3 goals-for, fair play −1. -/
def mexicoRow : GroupStanding :=
  { team_name := "Mexico".data, group_letter := "C".data, rank := 0,
    points := 4, goal_difference := 1, goals_for := 3,
    fair_play_points := -1 }

/-- Team Poland of the tie-break precedence example: same football
stats, fair play −4. -/
def polandRow : GroupStanding :=
  { team_name := "Poland".data, group_letter := "C".data, rank := 0,
    points := 4, goal_difference := 1, goals_for := 3,
    fair_play_points := -4 }

theorem sort_ordering_witness :
    (mexicoRow.points = polandRow.points
      ∧ mexicoRow.goal_difference = polandRow.goal_difference
      ∧ mexicoRow.goals_for = polandRow.goals_for
      ∧ polandRow.fair_play_points < mexicoRow.fair_play_points
      ∧ (sortDispatch none [polandRow, mexicoRow]).map (·.team_name)
        = ["Mexico".data, "Poland".data])
    ∧ 0 < 1 :=
  ⟨⟨by decide, by decide, by decide, by decide, by decide⟩,
   (sort_ordering [polandRow, mexicoRow] []).2.2.2.2 none mexicoRow polandRow
     (by decide) (by decide) (by decide) (by decide) (by decide) (by decide)
     (by decide) (by decide) 0 1 (by decide) (by decide) (by decide)
     (by decide)⟩

/-! ### Claim theorems: bracket-label resolution -/

theorem pyStartsWith_append : ∀ (p s : PyStr), pyStartsWith p (p ++ s) = true := by
  intro p
  induction p with
  | nil => intro s; rfl
  | cons c cs ih =>
    intro s
    show (if c = c then pyStartsWith cs (cs ++ s) else false) = true
    rw [if_pos rfl]
    exact ih s

/-- Removing all occurrences of a pattern from `pat ++ G` first removes
the leading occurrence. -/
theorem pyReplace_append_front (pat G : PyStr) (h : pat ≠ []) :
    pyReplace pat [] (pat ++ G) = pyReplace pat [] G := by
  cases pat with
  | nil => exact absurd rfl h
  | cons p ps =>
    show replaceGo p ps [] ((p :: ps) ++ G).length ((p :: ps) ++ G)
      = replaceGo p ps [] G.length G
    have hlen : ((p :: ps) ++ G).length = (ps ++ G).length + 1 := by simp
    rw [hlen]
    rw [show replaceGo p ps [] ((ps ++ G).length + 1) ((p :: ps) ++ G)
        = (if pyStartsWith (p :: ps) (p :: (ps ++ G)) then
            [] ++ replaceGo p ps [] (ps ++ G).length ((ps ++ G).drop ps.length)
          else p :: replaceGo p ps [] (ps ++ G).length (ps ++ G)) from rfl]
    rw [if_pos (show pyStartsWith (p :: ps) (p :: (ps ++ G)) = true from
        pyStartsWith_append (p :: ps) G),
      List.drop_left, List.nil_append]
    exact replaceGo_fuel p ps [] (ps ++ G).length G G.length (by simp) (le_refl _)

/-- C7: `"Winner <G>"` resolves to the first-ranked team name of group
`<G>` and `"Runner-up <G>"` to the second, each giving `"TBD"` when the
group is absent or has too few rows; `"3rd Place <G1>/.../<Gk>"`
resolves to the team of the first listed group present among the
supplied third-place qualifiers, else `"TBD"`; any label matching none
of the three prefixes is returned unchanged; and resolution is a total
function — no input raises an exception. -/
theorem resolve_label_spec (standings : List (PyStr × List GroupStanding))
    (tpbg : List (PyStr × PyStr)) :
    (∀ (G : PyStr) (r : GroupStanding) (rest : List GroupStanding),
      pyReplace "Winner ".data [] G = G → pyStrip G = G →
      lookupGroup standings G = some (r :: rest) →
      resolve_label ("Winner ".data ++ G) standings tpbg = r.team_name)
    ∧ (∀ G : PyStr,
      pyReplace "Winner ".data [] G = G → pyStrip G = G →
      (lookupGroup standings G = none ∨ lookupGroup standings G = some []) →
      resolve_label ("Winner ".data ++ G) standings tpbg = "TBD".data)
    ∧ (∀ (G : PyStr) (a r : GroupStanding) (rest : List GroupStanding),
      pyReplace "Runner-up ".data [] G = G → pyStrip G = G →
      lookupGroup standings G = some (a :: r :: rest) →
      resolve_label ("Runner-up ".data ++ G) standings tpbg = r.team_name)
    ∧ (∀ G : PyStr,
      pyReplace "Runner-up ".data [] G = G → pyStrip G = G →
      (lookupGroup standings G = none ∨ lookupGroup standings G = some []
        ∨ (∃ x, lookupGroup standings G = some [x])) →
      resolve_label ("Runner-up ".data ++ G) standings tpbg = "TBD".data)
    ∧ (∀ T : PyStr,
      pyReplace "3rd Place ".data [] T = T →
      resolve_label ("3rd Place ".data ++ T) standings tpbg
        = ((pySplitSlash T).findSome? (fun o => lookupTP tpbg (pyStrip o))).getD
            "TBD".data)
    ∧ (∀ label : PyStr,
      pyStartsWith "Winner ".data label = false →
      pyStartsWith "Runner-up ".data label = false →
      pyStartsWith "3rd Place ".data label = false →
      resolve_label label standings tpbg = label) := by
  refine ⟨?_, ?_, ?_, ?_, ?_, ?_⟩
  · intro G r rest hrep hstrip hlook
    unfold resolve_label
    rw [if_pos (pyStartsWith_append "Winner ".data G),
      pyReplace_append_front "Winner ".data G (by decide), hrep, hstrip, hlook]
  · intro G hrep hstrip hlook
    unfold resolve_label
    rw [if_pos (pyStartsWith_append "Winner ".data G),
      pyReplace_append_front "Winner ".data G (by decide), hrep, hstrip]
    rcases hlook with h | h <;> rw [h]
  · intro G a r rest hrep hstrip hlook
    unfold resolve_label
    rw [show pyStartsWith "Winner ".data ("Runner-up ".data ++ G) = false from rfl,
      if_neg Bool.false_ne_true,
      if_pos (pyStartsWith_append "Runner-up ".data G),
      pyReplace_append_front "Runner-up ".data G (by decide), hrep, hstrip, hlook]
  · intro G hrep hstrip hlook
    unfold resolve_label
    rw [show pyStartsWith "Winner ".data ("Runner-up ".data ++ G) = false from rfl,
      if_neg Bool.false_ne_true,
      if_pos (pyStartsWith_append "Runner-up ".data G),
      pyReplace_append_front "Runner-up ".data G (by decide), hrep, hstrip]
    rcases hlook with h | h | ⟨x, h⟩ <;> rw [h]
  · intro T hrep
    unfold resolve_label
    rw [show pyStartsWith "Winner ".data ("3rd Place ".data ++ T) = false from rfl,
      if_neg Bool.false_ne_true,
      show pyStartsWith "Runner-up ".data ("3rd Place ".data ++ T) = false from rfl,
      if_neg Bool.false_ne_true,
      if_pos (pyStartsWith_append "3rd Place ".data T),
      pyReplace_append_front "3rd Place ".data T (by decide), hrep]
    cases hfs : (pySplitSlash T).findSome? (fun o => lookupTP tpbg (pyStrip o)) <;>
      rfl
  · intro label h1 h2 h3
    unfold resolve_label
    rw [h1, if_neg Bool.false_ne_true, h2, if_neg Bool.false_ne_true,
      h3, if_neg Bool.false_ne_true]

/-- Group standings for the resolution example: one group `A` with two
ranked rows. -/
def c7st : List (PyStr × List GroupStanding) :=
  [("A".data,
    [{ team_name := "TeamX".data, group_letter := "A".data, rank := 1 },
     { team_name := "TeamY".data, group_letter := "A".data, rank := 2 }])]

/-- Third-place qualifiers for the resolution example. -/
def c7tp : List (PyStr × PyStr) := [("D".data, "TeamZ".data)]

theorem resolve_label_spec_witness :
    (pyReplace "Winner ".data [] "A".data = "A".data
      ∧ pyStrip "A".data = "A".data
      ∧ lookupGroup c7st "A".data
        = some [{ team_name := "TeamX".data, group_letter := "A".data, rank := 1 },
                { team_name := "TeamY".data, group_letter := "A".data, rank := 2 }])
    ∧ resolve_label ("Winner ".data ++ "A".data) c7st c7tp = "TeamX".data :=
  ⟨⟨by decide, by decide, by decide⟩,
   (resolve_label_spec c7st c7tp).1 "A".data
     { team_name := "TeamX".data, group_letter := "A".data, rank := 1 }
     [{ team_name := "TeamY".data, group_letter := "A".data, rank := 2 }]
     (by decide) (by decide) (by decide)⟩

end FifaEngine
